import Mathlib

/-!
# Verification of the MDM deduplication / merge engine

Shallow embedding of the Master Data Management core (duplicate detection,
rule-driven reversible merge, quality scoring) of this repository, together
with the parts of the HTTP route handlers present in the source
(`src/app/api/mdm/...`).  The core service (`MDMService`) is not part of the
source tree; wherever a definition models it, its doc comment says
`Modelled from the spec:` and follows the specification text (§4 of spec.md).
-/

namespace Mdm

/-- Record lifecycle status, from the data model (§3) and the
`ListPartiesSchema` enum in `src/app/api/mdm/parties/route.ts`. -/
inductive RecordStatus
  | ACTIVE
  | INACTIVE
  | MERGED
  | DELETED
deriving DecidableEq, Repr

/-- MergeLog status (§3): `ACTIVE` or `REVERSED`. -/
inductive LogStatus
  | ACTIVE
  | REVERSED
deriving DecidableEq, Repr

/-- Survivorship strategy, from the `UpdateRuleSchema` enum in the
survivorship-rule route (`fieldMappings` values). -/
inductive Strategy
  | MASTER
  | DUPLICATE
  | NEWER
  | OLDER
  | CUSTOM
deriving DecidableEq, Repr

/-- A tenant-scoped master record (§3): id, tenant, status, a field-name →
value mapping, and audit metadata.  Field values are strings; an absent
field is simply missing from the association list. -/
structure MasterRecord where
  id : Nat
  tenantId : Nat
  status : RecordStatus
  fields : List (String × String)
  updatedAt : Nat
  updatedBy : Nat
deriving DecidableEq, Repr

/-- A full snapshot of one record's pre-merge state, embedded in a MergeLog
(§3): complete field state plus status and audit metadata. -/
structure Snapshot where
  fields : List (String × String)
  status : RecordStatus
  updatedAt : Nat
  updatedBy : Nat
deriving DecidableEq, Repr

/-- Tenant-scoped survivorship rule (§3 and the `UpdateRuleSchema`). -/
structure SurvivorshipRule where
  id : Nat
  tenantId : Nat
  ruleName : String
  priority : Int
  fieldMappings : List (String × Strategy)
  customLogic : Option String
  isActive : Bool
deriving DecidableEq, Repr

/-- Immutable audit record of one merge (§3): both pre-merge snapshots, the
rule used (nullable ⇒ default policy), reason, and status. -/
structure MergeLog where
  id : Nat
  tenantId : Nat
  masterRecordId : Nat
  duplicateRecordId : Nat
  ruleId : Option Nat
  masterSnapshot : Snapshot
  duplicateSnapshot : Snapshot
  mergeReason : Option String
  status : LogStatus
deriving DecidableEq, Repr

/-- The persistent state the core operates on: the tenant-partitioned record
table, the append-only merge log and the rule table, plus the id counter
used for freshly created merge logs. -/
structure MdmState where
  records : List MasterRecord
  logs : List MergeLog
  rules : List SurvivorshipRule
  nextLogId : Nat
deriving Repr

/-- Error taxonomy of the core (§7). -/
inductive MdmError
  | NotFoundError
  | InvalidOperationError
  | InvalidStateError
  | AlreadyMergedError
deriving DecidableEq, Repr

/-- Field lookup in a record's field map: first binding wins. -/
def getField (fs : List (String × String)) (k : String) : Option String :=
  (fs.find? (fun p => p.1 == k)).map (·.2)

/-- Modelled from the spec: the repository operation `getById(tenantId, id)`
(§6) — a record is visible only when both its id and its tenant match, so an
out-of-tenant record behaves exactly like an absent one. -/
def findRecord (S : MdmState) (t rid : Nat) : Option MasterRecord :=
  S.records.find? (fun r => r.id == rid && r.tenantId == t)

/-- Modelled from the spec: the repository operation `getRuleById(tenantId, id)`
(§6), tenant-scoped like `findRecord`. -/
def findRule (S : MdmState) (t rid : Nat) : Option SurvivorshipRule :=
  S.rules.find? (fun r => r.id == rid && r.tenantId == t)

/-- Modelled from the spec: the repository operation `getMergeLogById(tenantId, id)`
(§6), tenant-scoped like `findRecord`. -/
def findLog (S : MdmState) (t lid : Nat) : Option MergeLog :=
  S.logs.find? (fun l => l.id == lid && l.tenantId == t)

/-- Modelled from the spec: "active merge participation" (§5) — whether a
record id appears on either side of an ACTIVE MergeLog of its tenant. -/
def participatesActive (S : MdmState) (t rid : Nat) : Bool :=
  S.logs.any (fun l =>
    l.tenantId == t && l.status == LogStatus.ACTIVE &&
      (l.masterRecordId == rid || l.duplicateRecordId == rid))

/-- A CUSTOM-strategy evaluator: given the rule's custom-logic expression and
the two field values it deterministically returns a resolved value, or
`none` to signal "use default / evaluation error", which falls back to the
master's value (§4.3). The engine is parametric in it because the source
does not show how CUSTOM logic is evaluated (§9, open question). -/
def CustomEval : Type :=
  String → Option String → Option String → Option (Option String)

/-- Modelled from the spec: `resolveField` of the Survivorship Rule Engine
(§4.3).  MASTER/DUPLICATE keep one side unconditionally; NEWER/OLDER pick by
`updatedAt` with ties going to the master; CUSTOM consults the evaluator and
falls back to the master's value on "use default" or error. -/
def resolveField (ec : CustomEval) (strat : Strategy) (customLogic : Option String)
    (mv dv : Option String) (mUpd dUpd : Nat) : Option String :=
  match strat with
  | Strategy.MASTER => mv
  | Strategy.DUPLICATE => dv
  | Strategy.NEWER => if mUpd < dUpd then dv else mv
  | Strategy.OLDER => if dUpd < mUpd then dv else mv
  | Strategy.CUSTOM =>
    match customLogic with
    | none => mv
    | some expr =>
      match ec expr mv dv with
      | some v => v
      | none => mv

/-- The strategy a rule assigns to a field: fields not enumerated in the
rule's field-mapping default to MASTER, and so does every field when no rule
is supplied (§4.3). -/
def strategyFor (rule : Option SurvivorshipRule) (k : String) : Strategy :=
  match rule with
  | none => Strategy.MASTER
  | some r => (r.fieldMappings.lookup k).getD Strategy.MASTER

/-- Modelled from the spec: step 2 of the merge algorithm (§4.4) — for every
field present in either record, resolve via the rule engine; fields that
resolve to an absent value are omitted from the merged field map. -/
def resolvedFields (ec : CustomEval) (rule : Option SurvivorshipRule)
    (m d : MasterRecord) : List (String × String) :=
  let keys := (m.fields.map Prod.fst ++ d.fields.map Prod.fst).dedup
  keys.filterMap (fun k =>
    (resolveField ec (strategyFor rule k) (rule.bind (·.customLogic))
        (getField m.fields k) (getField d.fields k) m.updatedAt d.updatedAt).map
      (fun v => (k, v)))

/-- Arguments of one merge invocation (`mergeParties`), as validated by
`MergePartiesSchema` in the merge route, plus the clock / actor the
orchestrator stamps onto updated rows. -/
structure MergeCall where
  tenantId : Nat
  masterId : Nat
  duplicateId : Nat
  ruleId : Option Nat
  reason : Option String
  now : Nat
  byUser : Nat
deriving DecidableEq, Repr

/-- Modelled from the spec: the merge preconditions (§4.4) checked against a
read snapshot of the state — distinct ids (`InvalidOperationError`), both
records exist in the tenant (`NotFoundError`) and are ACTIVE
(`InvalidStateError`), and a supplied rule id resolves in the tenant
(`NotFoundError`).  Returns the loaded records and rule on success. -/
def mergePre (S : MdmState) (c : MergeCall) :
    Except MdmError (MasterRecord × MasterRecord × Option SurvivorshipRule) :=
  if c.masterId == c.duplicateId then Except.error MdmError.InvalidOperationError
  else
    match findRecord S c.tenantId c.masterId with
    | none => Except.error MdmError.NotFoundError
    | some m =>
      match findRecord S c.tenantId c.duplicateId with
      | none => Except.error MdmError.NotFoundError
      | some d =>
        if m.status ≠ RecordStatus.ACTIVE then Except.error MdmError.InvalidStateError
        else if d.status ≠ RecordStatus.ACTIVE then Except.error MdmError.InvalidStateError
        else
          match c.ruleId with
          | none => Except.ok (m, d, none)
          | some rid =>
            match findRule S c.tenantId rid with
            | none => Except.error MdmError.NotFoundError
            | some rule => Except.ok (m, d, some rule)

/-- Step 1 of the merge algorithm (§4.4): a full snapshot of one record's
pre-merge state. -/
def mkSnap (r : MasterRecord) : Snapshot :=
  ⟨r.fields, r.status, r.updatedAt, r.updatedBy⟩

/-- Step 5 of the merge algorithm (§4.4): the fresh ACTIVE MergeLog
embedding both pre-merge snapshots, the rule id and the reason. -/
def mkLog (S : MdmState) (c : MergeCall) (m d : MasterRecord) : MergeLog :=
  ⟨S.nextLogId, c.tenantId, c.masterId, c.duplicateId, c.ruleId,
    mkSnap m, mkSnap d, c.reason, LogStatus.ACTIVE⟩

/-- Steps 3–4 of the merge algorithm (§4.4) as a row update: the master
receives the resolved field map and fresh `updatedAt`/`updatedBy`, the
duplicate's status becomes MERGED (its raw data retained), every other row
is untouched. -/
def mergeUpd (c : MergeCall) (nf : List (String × String)) (r : MasterRecord) :
    MasterRecord :=
  if r.id == c.masterId && r.tenantId == c.tenantId then
    { r with fields := nf, updatedAt := c.now, updatedBy := c.byUser }
  else if r.id == c.duplicateId && r.tenantId == c.tenantId then
    { r with status := RecordStatus.MERGED }
  else r

/-- The successor state of a committed merge (§4.4 steps 1–5): updated
record rows, the appended ACTIVE MergeLog, and the bumped log-id counter. -/
def mergeApply (ec : CustomEval) (S : MdmState) (c : MergeCall)
    (m d : MasterRecord) (rule : Option SurvivorshipRule) : MdmState :=
  { records := S.records.map (mergeUpd c (resolvedFields ec rule m d)),
    logs := S.logs ++ [mkLog S c m d],
    rules := S.rules,
    nextLogId := S.nextLogId + 1 }

/-- Modelled from the spec: the atomic commit of a merge (§4.4 steps 1–6 and
§5).  The "neither record already participates in an ACTIVE MergeLog"
condition is enforced here, atomically against the current state (the
uniqueness-constraint / compare-and-swap of §5); violation is
`AlreadyMergedError`.  On success it returns the new state, the fresh
mergeLogId and the merged master record. -/
def mergeCommit (ec : CustomEval) (S : MdmState) (c : MergeCall)
    (m d : MasterRecord) (rule : Option SurvivorshipRule) :
    Except MdmError (MdmState × Nat × MasterRecord) :=
  if participatesActive S c.tenantId c.masterId ||
      participatesActive S c.tenantId c.duplicateId then
    Except.error MdmError.AlreadyMergedError
  else
    Except.ok (mergeApply ec S c m d rule, S.nextLogId,
      { m with fields := resolvedFields ec rule m d,
               updatedAt := c.now, updatedBy := c.byUser })

/-- Modelled from the spec: the Merge Orchestrator's
`merge(tenantId, masterId, duplicateId, ruleId?, reason?)` (§4.4) — the
precondition phase followed by the atomic commit; any precondition failure
aborts before any state change. -/
def mergeParties (ec : CustomEval) (S : MdmState) (c : MergeCall) :
    Except MdmError (MdmState × Nat × MasterRecord) :=
  match mergePre S c with
  | Except.error e => Except.error e
  | Except.ok (m, d, rule) => mergeCommit ec S c m d rule

/-- Arguments of one unmerge invocation (`unmergeParty`), as validated by
`UnmergeSchema` in the merge route. -/
structure UnmergeCall where
  tenantId : Nat
  mergeLogId : Nat
  reason : Option String
  now : Nat
  byUser : Nat
deriving DecidableEq, Repr

/-- Steps 1–2 of the unmerge algorithm (§4.4) as a row update: the
duplicate's full field state and ACTIVE status are restored from the
duplicate snapshot, the master's full field state from the master snapshot;
every other row is untouched. -/
def unmergeUpd (c : UnmergeCall) (log : MergeLog) (r : MasterRecord) :
    MasterRecord :=
  if r.id == log.duplicateRecordId && r.tenantId == c.tenantId then
    { r with fields := log.duplicateSnapshot.fields,
             status := RecordStatus.ACTIVE,
             updatedAt := c.now, updatedBy := c.byUser }
  else if r.id == log.masterRecordId && r.tenantId == c.tenantId then
    { r with fields := log.masterSnapshot.fields,
             updatedAt := c.now, updatedBy := c.byUser }
  else r

/-- Step 3 of the unmerge algorithm (§4.4): mark the MergeLog with the given
id REVERSED; every other log row is untouched and no log is ever deleted. -/
def flipLog (lid : Nat) (l : MergeLog) : MergeLog :=
  if l.id == lid then { l with status := LogStatus.REVERSED } else l

/-- The successor state of an unmerge (§4.4): restored record rows and the
REVERSED log. -/
def unmergeApply (S : MdmState) (c : UnmergeCall) (log : MergeLog) : MdmState :=
  { records := S.records.map (unmergeUpd c log),
    logs := S.logs.map (flipLog log.id),
    rules := S.rules,
    nextLogId := S.nextLogId }

/-- Modelled from the spec: `unmerge(tenantId, mergeLogId, reason?)` (§4.4),
precondition checks followed by the state update above. -/
def unmergeParty (S : MdmState) (c : UnmergeCall) :
    Except MdmError (MdmState × Nat × Nat) :=
  match findLog S c.tenantId c.mergeLogId with
  | none => Except.error MdmError.NotFoundError
  | some log =>
    if log.status ≠ LogStatus.ACTIVE then Except.error MdmError.InvalidStateError
    else
      Except.ok (unmergeApply S c log, log.masterRecordId, log.duplicateRecordId)

/-- Levenshtein edit distance on character lists, the normalized
string-distance underlying the fuzzy-text comparators of the Similarity
Scorer (§4.1). -/
def editDist : List Char → List Char → Nat
  | [], ys => ys.length
  | _ :: xs, [] => xs.length + 1
  | x :: xs, y :: ys =>
    if x = y then editDist xs ys
    else 1 + min (editDist xs (y :: ys)) (min (editDist (x :: xs) ys) (editDist xs ys))
termination_by xs ys => xs.length + ys.length

/-- Modelled from the spec: the normalized string-distance similarity in
[0,1] used for fuzzy-text fields (§4.1): `1 - dist/maxLen`, and 1 for two
empty strings. -/
def strSim (x y : String) : ℚ :=
  if x.data.length = 0 ∧ y.data.length = 0 then 1
  else 1 - (editDist x.data y.data : ℚ) /
    ((max x.data.length y.data.length : ℕ) : ℚ)

/-- Contribution of one exact-match field (§4.1): the full weight on exact
match of two present values, zero otherwise (missing values contribute
zero). -/
def exactTerm (w : ℚ) (a b : Option String) : ℚ :=
  match a, b with
  | some x, some y => if x = y then w else 0
  | _, _ => 0

/-- Contribution of one fuzzy-text field (§4.1): the weight scaled by the
normalized string similarity when both values are present, zero otherwise. -/
def fuzzyTerm (w : ℚ) (a b : Option String) : ℚ :=
  match a, b with
  | some x, some y => w * strSim x y
  | _, _ => 0

/-- Modelled from the spec: the Similarity Scorer `score(a, b)` (§4.1) over
the fixed comparable fields — exact-match comparators for registration
number, tax id, email and phone, fuzzy-text comparators for name, legal
name and address — with a fixed weight table summing to 100, so the
weighted sum is already normalized to [0,100]. -/
def simScore (a b : MasterRecord) : ℚ :=
  exactTerm 20 (getField a.fields "registrationNumber") (getField b.fields "registrationNumber") +
  exactTerm 20 (getField a.fields "taxId") (getField b.fields "taxId") +
  exactTerm 10 (getField a.fields "email") (getField b.fields "email") +
  exactTerm 5 (getField a.fields "phone") (getField b.fields "phone") +
  fuzzyTerm 25 (getField a.fields "name") (getField b.fields "name") +
  fuzzyTerm 10 (getField a.fields "legalName") (getField b.fields "legalName") +
  fuzzyTerm 10 (getField a.fields "address") (getField b.fields "address")

/-- Modelled from the spec: whether a candidate record is "already linked to
the target via an ACTIVE MergeLog" (§4.2), on either side of the link. -/
def isLinkedActive (S : MdmState) (t target rid : Nat) : Bool :=
  S.logs.any (fun l =>
    l.tenantId == t && l.status == LogStatus.ACTIVE &&
      ((l.masterRecordId == target && l.duplicateRecordId == rid) ||
       (l.duplicateRecordId == target && l.masterRecordId == rid)))

/-- Candidate ordering of the Duplicate Finder (§4.2): score descending,
ties broken by candidate id ascending. -/
def candidateOrder (a b : Nat × ℚ) : Bool :=
  b.2 < a.2 || (a.2 == b.2 && a.1 ≤ b.1)

/-- Modelled from the spec: `findDuplicates(tenantId, targetRecordId, threshold)`
(§4.2).  `NotFoundError` when the target does not exist in the tenant;
otherwise scores every ACTIVE record of the tenant other than the target
and records actively linked to it, keeps scores ≥ threshold, and sorts by
score descending with id-ascending tie-break. -/
def findPartyDuplicates (S : MdmState) (t target : Nat) (threshold : ℚ) :
    Except MdmError (List (Nat × ℚ)) :=
  match findRecord S t target with
  | none => Except.error MdmError.NotFoundError
  | some tr =>
    let cands := S.records.filter (fun r =>
      r.tenantId == t && r.status == RecordStatus.ACTIVE && r.id != target &&
        !(isLinkedActive S t target r.id))
    let kept := (cands.map (fun r => (r.id, simScore tr r))).filter
      (fun p => threshold ≤ p.2)
    Except.ok (kept.mergeSort candidateOrder)

/-- The fixed set of "expected" fields of the completeness dimension
(§4.5), matching the party attributes of `CreatePartySchema`. -/
def expectedFields : List String :=
  ["name", "legalName", "registrationNumber", "taxId", "email", "phone",
   "address", "city", "country"]

/-- A present, non-empty field value. -/
def isNonEmpty (v : Option String) : Bool :=
  match v with
  | some s => s != ""
  | none => false

/-- Modelled from the spec: the completeness dimension (§4.5) — fraction of
the expected fields that are non-empty, in [0,1]. -/
def completeness (r : MasterRecord) : ℚ :=
  (expectedFields.countP (fun f => isNonEmpty (getField r.fields f)) : ℚ) /
    (expectedFields.length : ℚ)

/-- Email shape check of the validity dimension (§4.5). -/
def validEmail (s : String) : Bool :=
  s.data.contains '@' && s.data.contains '.'

/-- Tax-id shape check of the validity dimension (§4.5): non-empty digits. -/
def validTaxId (s : String) : Bool :=
  !s.data.isEmpty && s.data.all (fun ch => ch.isDigit)

/-- Phone shape check of the validity dimension (§4.5): non-empty, digits
with an optional leading plus sign. -/
def validPhone (s : String) : Bool :=
  !s.data.isEmpty && s.data.all (fun ch => ch.isDigit || ch == '+')

/-- Country shape check of the validity dimension (§4.5): a two-letter
uppercase code (cf. the `country: max 2` bound of `CreatePartySchema`). -/
def validCountry (s : String) : Bool :=
  s.data.length == 2 && s.data.all (fun ch => ch.isUpper)

/-- The per-field format checks of the validity dimension (§4.5). -/
def validityChecks : List (String × (String → Bool)) :=
  [("email", validEmail), ("taxId", validTaxId),
   ("phone", validPhone), ("country", validCountry)]

/-- Whether a record passes one per-field format check; an absent field
fails its check. -/
def validityPass (r : MasterRecord) (p : String × (String → Bool)) : Bool :=
  match getField r.fields p.1 with
  | some v => p.2 v
  | none => false

/-- Modelled from the spec: the validity dimension (§4.5) — pass/fail
average of the per-field format checks. -/
def validity (r : MasterRecord) : ℚ :=
  (validityChecks.countP (validityPass r) : ℚ) / (validityChecks.length : ℚ)

/-- Country dial codes used by the cross-field consistency check (§4.5). -/
def dialCodes : List (String × String) :=
  [("US", "+1"), ("GB", "+44"), ("EG", "+20"), ("SA", "+966"), ("AE", "+971")]

/-- Modelled from the spec: the consistency dimension's cross-field check
(§4.5) — the country code matches the phone's derivable country dial code;
not derivable (absent fields or unknown country) counts as failing. -/
def countryPhoneConsistent (r : MasterRecord) : Bool :=
  match getField r.fields "country", getField r.fields "phone" with
  | some c, some p =>
    match dialCodes.lookup c with
    | some code => code.data.isPrefixOf p.data
    | none => false
  | _, _ => false

/-- Modelled from the spec: the consistency dimension (§4.5), the pass/fail
value of the cross-field check as a rational in [0,1]. -/
def consistency (r : MasterRecord) : ℚ :=
  if countryPhoneConsistent r then 1 else 0

/-- Round a rational to the nearest integer (half up). -/
def ratRound (q : ℚ) : ℤ :=
  ⌊q + 1 / 2⌋

/-- Modelled from the spec: the Quality Scorer's overall score (§4.5) — the
weighted average of completeness, validity and consistency (weights
2/5, 2/5, 1/5), scaled to 0–100 and rounded to an integer. -/
def qualityScore (r : MasterRecord) : ℤ :=
  ratRound (100 * (2 / 5 * completeness r + 2 / 5 * validity r +
    1 / 5 * consistency r))

/-- An API-layer response: success with data, or an error status and
message, as produced by the route handlers. -/
inductive ApiResponse (α : Type)
  | ok (data : α)
  | err (status : Nat) (msg : String)
deriving DecidableEq, Repr

/-- The non-tenant-scoped database lookup
`prisma.survivorshipRule.findUnique({ where: { id } })` used by the
survivorship-rule route handlers. -/
def dbFindRuleById (rules : List SurvivorshipRule) (rid : Nat) :
    Option SurvivorshipRule :=
  rules.find? (fun r => r.id == rid)

/-- The GET survivorship-rule handler's lookup-and-scope check: fetch the
rule by id, then `if (!rule || rule.tenantId !== user.tenantId)` answer
404 "Survivorship rule not found", else return the rule. -/
def ruleGetHandler (rules : List SurvivorshipRule) (rid userTenant : Nat) :
    ApiResponse SurvivorshipRule :=
  match dbFindRuleById rules rid with
  | none => ApiResponse.err 404 "Survivorship rule not found"
  | some rule =>
    if rule.tenantId != userTenant then
      ApiResponse.err 404 "Survivorship rule not found"
    else ApiResponse.ok rule

/-- The DELETE survivorship-rule handler: the same lookup-and-scope check as
GET (identical 404 on absent or out-of-tenant), then deletion of the rule
row and a success message.  Returns the response together with the
resulting rule table. -/
def ruleDeleteHandler (rules : List SurvivorshipRule) (rid userTenant : Nat) :
    ApiResponse String × List SurvivorshipRule :=
  match dbFindRuleById rules rid with
  | none => (ApiResponse.err 404 "Survivorship rule not found", rules)
  | some rule =>
    if rule.tenantId != userTenant then
      (ApiResponse.err 404 "Survivorship rule not found", rules)
    else
      (ApiResponse.ok "Survivorship rule deleted",
       rules.filter (fun r => r.id != rid))

/-- Value of a digit run, most significant first. -/
def digitsVal (cs : List Char) : Nat :=
  cs.foldl (fun acc c => acc * 10 + (c.toNat - ('0').toNat)) 0

/-- JavaScript `parseInt(s)` in base 10: skip leading spaces, read an
optional sign and a leading digit run; `none` models `NaN` (no digits). -/
def jsParseInt (s : String) : Option Int :=
  let cs := s.data.dropWhile (fun c => c == ' ')
  let signed : Int × List Char :=
    match cs with
    | '-' :: r => (-1, r)
    | '+' :: r => (1, r)
    | r => (1, r)
  let ds := signed.2.takeWhile Char.isDigit
  if ds.isEmpty then none else some (signed.1 * (digitsVal ds : Int))

/-- The query parameters consumed by the merge-history GET handler of the
quality route: `searchParams.get('recordId')` and
`searchParams.get('limit')` (absent parameter = `none`). -/
structure HistoryQuery where
  recordId : Option String
  limit : Option String
deriving DecidableEq, Repr

/-- Outcome of the merge-history GET handler's parameter handling: a 400
when recordId is missing, else the values forwarded to
`getMergeHistory(tenantId, recordId, limit)` — the limit being the raw
`parseInt(searchParams.get('limit') || '50')` result (`none` = `NaN`). -/
inductive HistoryOutcome
  | badRequest (msg : String)
  | forwarded (recordId : String) (limit : Option Int)
deriving DecidableEq, Repr

/-- The merge-history GET handler of
`src/app/api/mdm/parties/quality/route.ts`: it checks only that `recordId`
is present (JS `!recordId` is true for `null` and the empty string) and
forwards the raw parsed limit without consulting `MergeHistorySchema`. -/
def mergeHistoryGET (q : HistoryQuery) : HistoryOutcome :=
  let lim := jsParseInt (q.limit.getD "50")
  match q.recordId with
  | none => HistoryOutcome.badRequest "recordId query parameter is required"
  | some rid =>
    if rid == "" then
      HistoryOutcome.badRequest "recordId query parameter is required"
    else HistoryOutcome.forwarded rid lim

/-- The `limit` bound declared by `MergeHistorySchema` in the quality route:
`z.number().int().min(1).max(100)`. -/
def mergeHistorySchemaLimitOk (n : Int) : Bool :=
  1 ≤ n && n ≤ 100

/-- Number of ACTIVE MergeLogs of a tenant naming a record id as their
duplicate side ("active merge participation" as duplicate, §3/§5). -/
def activeDupCount (S : MdmState) (t rid : Nat) : Nat :=
  S.logs.countP (fun l =>
    l.tenantId == t && l.duplicateRecordId == rid &&
      l.status == LogStatus.ACTIVE)

/-- Well-formedness: no two record rows share a (tenant, id) key. -/
def recordKeysUnique (S : MdmState) : Prop :=
  S.records.Pairwise (fun a b => a.id ≠ b.id ∨ a.tenantId ≠ b.tenantId)

/-- Well-formedness of the log table's id discipline: every log id is below
the id counter and log ids are pairwise distinct. -/
def logIdsOk (S : MdmState) : Prop :=
  (∀ l ∈ S.logs, l.id < S.nextLogId) ∧
    S.logs.Pairwise (fun a b => a.id ≠ b.id)

/-- The merge-participation invariant (§3): a MERGED record appears as the
duplicate side of exactly one ACTIVE MergeLog of its tenant, and any other
record (in particular an ACTIVE one) of none; together with the key and
log-id well-formedness the state machine preserves. -/
def mergeInvariant (S : MdmState) : Prop :=
  recordKeysUnique S ∧ logIdsOk S ∧
    ∀ r ∈ S.records, activeDupCount S r.tenantId r.id =
      (if r.status = RecordStatus.MERGED then 1 else 0)

/-- Audit evolution of a single log row across one step: unchanged, or
flipped from ACTIVE to REVERSED (and nothing else). -/
def logCompat (a b : MergeLog) : Prop :=
  b = a ∨ (a.status = LogStatus.ACTIVE ∧
    b = { a with status := LogStatus.REVERSED })

/-- Audit evolution of the log table across one step: at most one new log
is appended, no log is deleted, and every existing row is unchanged except
for at most one ACTIVE→REVERSED transition. -/
def logsEvolve (S S' : MdmState) : Prop :=
  S'.logs.length ≤ S.logs.length + 1 ∧
    List.Forall₂ logCompat S.logs (S'.logs.take S.logs.length)

/-- One public mutation step of the engine: a successful merge (with any
CUSTOM evaluator) or a successful unmerge. -/
inductive MdmStep : MdmState → MdmState → Prop
  | merge (ec : CustomEval) (c : MergeCall) (S S' : MdmState) (L : Nat)
      (r : MasterRecord) (h : mergeParties ec S c = Except.ok (S', L, r)) :
      MdmStep S S'
  | unmerge (c : UnmergeCall) (S S' : MdmState) (a b : Nat)
      (h : unmergeParty S c = Except.ok (S', a, b)) :
      MdmStep S S'

/-- A concrete CUSTOM evaluator (always "use default") for instantiating
the parametric theorems on executable inputs. -/
def exEval : CustomEval := fun _ _ _ => none

/-- Example record A of the spec's §8 scenario (tenant 7). -/
def exRecA : MasterRecord :=
  ⟨1, 7, RecordStatus.ACTIVE, [("name", "Acme Inc"), ("taxId", "123")], 10, 1⟩

/-- Example record B of the spec's §8 scenario (tenant 7). -/
def exRecB : MasterRecord :=
  ⟨2, 7, RecordStatus.ACTIVE,
    [("name", "Acme Incorporated"), ("taxId", "123")], 11, 1⟩

/-- A third active record of tenant 7, used as a second master candidate. -/
def exRecC : MasterRecord :=
  ⟨3, 7, RecordStatus.ACTIVE, [("name", "Acme Int")], 12, 1⟩

/-- Example state: three active records, no logs or rules, next log id 5. -/
def exState : MdmState := ⟨[exRecA, exRecB, exRecC], [], [], 5⟩

/-- Merge call: record 2 into record 1, default policy. -/
def exMerge : MergeCall := ⟨7, 1, 2, none, none, 100, 9⟩

/-- A competing merge call referencing the same duplicate record 2. -/
def exMerge2 : MergeCall := ⟨7, 3, 2, none, none, 100, 9⟩

/-- Unmerge call for the log id 5 produced by `exMerge` from `exState`. -/
def exUnmerge : UnmergeCall := ⟨7, 5, none, 200, 9⟩

/-! ## Theorems -/

/-- C5.  Self-merge rejection: for every tenant and record id `x`, merging
`x` into itself fails with `InvalidOperationError`; since a failing merge
returns only the error and no successor state, the failure aborts before
any record update or MergeLog creation. -/
theorem self_merge_rejected (ec : CustomEval) (S : MdmState)
    (t x : Nat) (rid : Option Nat) (rsn : Option String) (now byu : Nat) :
    mergeParties ec S ⟨t, x, x, rid, rsn, now, byu⟩ =
      Except.error MdmError.InvalidOperationError := by
  simp [mergeParties, mergePre]

/-- C10.  The merge-history GET handler of the quality route checks only
that `recordId` is present (absent or empty `recordId` yields the 400
error), and forwards the raw `parseInt(limit || '50')` result to
`getMergeHistory` for every limit string; in particular the values 0, -5
and 1000 — all rejected by the `MergeHistorySchema` bound 1..100 — and the
NaN result of a non-numeric string all pass through unchecked. -/
theorem merge_history_limit_unvalidated :
    (∀ lim : Option String,
      mergeHistoryGET ⟨none, lim⟩ =
        HistoryOutcome.badRequest "recordId query parameter is required") ∧
    (∀ rid : String, rid ≠ "" → ∀ lim : Option String,
      mergeHistoryGET ⟨some rid, lim⟩ =
        HistoryOutcome.forwarded rid (jsParseInt (lim.getD "50"))) ∧
    (mergeHistoryGET ⟨some "rec1", some "0"⟩ =
        HistoryOutcome.forwarded "rec1" (some 0) ∧
      mergeHistorySchemaLimitOk 0 = false) ∧
    (mergeHistoryGET ⟨some "rec1", some "-5"⟩ =
        HistoryOutcome.forwarded "rec1" (some (-5)) ∧
      mergeHistorySchemaLimitOk (-5) = false) ∧
    (mergeHistoryGET ⟨some "rec1", some "1000"⟩ =
        HistoryOutcome.forwarded "rec1" (some 1000) ∧
      mergeHistorySchemaLimitOk 1000 = false) ∧
    mergeHistoryGET ⟨some "rec1", some "abc"⟩ =
      HistoryOutcome.forwarded "rec1" none := by
  refine ⟨fun _ => rfl, ?_, by decide, by decide, by decide, by decide⟩
  intro rid h lim
  have hb : (rid == "") = false := by
    simpa using h
  simp [mergeHistoryGET, hb]

/-- Witness for C10: the handler forwards the out-of-bound limit `0` for a
present recordId, by direct application of the theorem. -/
theorem merge_history_limit_unvalidated_witness :
    mergeHistoryGET ⟨some "rec1", some "0"⟩ =
      HistoryOutcome.forwarded "rec1" (jsParseInt ((some "0").getD "50")) :=
  merge_history_limit_unvalidated.2.1 "rec1" (by decide) (some "0")

/-- C9.  Cross-tenant lookups are indistinguishable from absence: whenever
no rule with the requested id belongs to the caller's tenant — whether the
id is entirely absent or exists under another tenant — the GET and DELETE
survivorship-rule handlers answer the identical 404 "Survivorship rule not
found" response (DELETE also leaves the rule table untouched), and the
tenant-scoped core lookups for records, rules and merge logs return `none`
exactly as for an absent entity. -/
theorem cross_tenant_lookup_not_found :
    (∀ (rules : List SurvivorshipRule) (rid t : Nat),
      (∀ rule ∈ rules, rule.id = rid → rule.tenantId ≠ t) →
      ruleGetHandler rules rid t =
        ApiResponse.err 404 "Survivorship rule not found") ∧
    (∀ (rules : List SurvivorshipRule) (rid t : Nat),
      (∀ rule ∈ rules, rule.id = rid → rule.tenantId ≠ t) →
      ruleDeleteHandler rules rid t =
        (ApiResponse.err 404 "Survivorship rule not found", rules)) ∧
    (∀ (S : MdmState) (t rid : Nat),
      (∀ r ∈ S.records, r.id = rid → r.tenantId ≠ t) →
      findRecord S t rid = none) ∧
    (∀ (S : MdmState) (t rid : Nat),
      (∀ r ∈ S.rules, r.id = rid → r.tenantId ≠ t) →
      findRule S t rid = none) ∧
    (∀ (S : MdmState) (t lid : Nat),
      (∀ l ∈ S.logs, l.id = lid → l.tenantId ≠ t) →
      findLog S t lid = none) := by
  refine ⟨?_, ?_, ?_, ?_, ?_⟩
  · intro rules rid t h
    unfold ruleGetHandler dbFindRuleById
    cases hf : rules.find? (fun r => r.id == rid) with
    | none => rfl
    | some rule =>
      have hmem : rule ∈ rules := List.mem_of_find?_eq_some hf
      have hid : rule.id = rid := by simpa using List.find?_some hf
      have hne : rule.tenantId ≠ t := h rule hmem hid
      simp [hne]
  · intro rules rid t h
    unfold ruleDeleteHandler dbFindRuleById
    cases hf : rules.find? (fun r => r.id == rid) with
    | none => rfl
    | some rule =>
      have hmem : rule ∈ rules := List.mem_of_find?_eq_some hf
      have hid : rule.id = rid := by simpa using List.find?_some hf
      have hne : rule.tenantId ≠ t := h rule hmem hid
      simp [hne]
  · intro S t rid h
    refine List.find?_eq_none.mpr ?_
    intro r hr
    simp only [Bool.and_eq_true, beq_iff_eq, not_and]
    exact fun h1 => h r hr h1
  · intro S t rid h
    refine List.find?_eq_none.mpr ?_
    intro r hr
    simp only [Bool.and_eq_true, beq_iff_eq, not_and]
    exact fun h1 => h r hr h1
  · intro S t lid h
    refine List.find?_eq_none.mpr ?_
    intro l hl
    simp only [Bool.and_eq_true, beq_iff_eq, not_and]
    exact fun h1 => h l hl h1

/-- Witness for C9: a rule table holding the requested id only under
another tenant produces the absent-entity 404 on the GET handler, by direct
application of the theorem. -/
theorem cross_tenant_lookup_not_found_witness :
    ruleGetHandler [⟨11, 2, "r", 0, [], none, true⟩] 11 1 =
      ApiResponse.err 404 "Survivorship rule not found" :=
  cross_tenant_lookup_not_found.1 [⟨11, 2, "r", 0, [], none, true⟩] 11 1
    (by decide)

theorem editDist_nil (ys : List Char) : editDist [] ys = ys.length := by
  cases ys <;> simp [editDist]

theorem editDist_cons_nil (x : Char) (xs : List Char) :
    editDist (x :: xs) [] = xs.length + 1 := by
  simp [editDist]

theorem editDist_cons_cons (x y : Char) (xs ys : List Char) :
    editDist (x :: xs) (y :: ys) =
      if x = y then editDist xs ys
      else 1 + min (editDist xs (y :: ys))
        (min (editDist (x :: xs) ys) (editDist xs ys)) := by
  simp [editDist]

theorem editDist_comm (xs ys : List Char) : editDist xs ys = editDist ys xs := by
  induction xs generalizing ys with
  | nil => cases ys <;> simp [editDist_nil, editDist_cons_nil]
  | cons x xs ihx =>
    induction ys with
    | nil => simp [editDist_nil, editDist_cons_nil]
    | cons y ys ihy =>
      rw [editDist_cons_cons, editDist_cons_cons y x]
      by_cases h : x = y
      · rw [if_pos h, if_pos h.symm]
        exact ihx ys
      · rw [if_neg h, if_neg (fun hh => h hh.symm)]
        rw [ihx (y :: ys), ihy, ihx ys]
        omega

theorem editDist_le_max (xs ys : List Char) :
    editDist xs ys ≤ max xs.length ys.length := by
  induction xs generalizing ys with
  | nil => cases ys <;> simp [editDist_nil]
  | cons x xs ihx =>
    induction ys with
    | nil => simp [editDist_cons_nil]
    | cons y ys ihy =>
      rw [editDist_cons_cons]
      by_cases h : x = y
      · rw [if_pos h]
        have := ihx ys
        simp only [List.length_cons]
        omega
      · rw [if_neg h]
        have h1 := ihx ys
        simp only [List.length_cons]
        omega

theorem strSim_comm (x y : String) : strSim x y = strSim y x := by
  unfold strSim
  rw [editDist_comm, Nat.max_comm x.data.length y.data.length]
  by_cases h : x.data.length = 0 ∧ y.data.length = 0
  · rw [if_pos h, if_pos ⟨h.2, h.1⟩]
  · rw [if_neg h, if_neg (fun hh => h ⟨hh.2, hh.1⟩)]

theorem strSim_nonneg (x y : String) : 0 ≤ strSim x y := by
  unfold strSim
  by_cases h : x.data.length = 0 ∧ y.data.length = 0
  · rw [if_pos h]; norm_num
  · rw [if_neg h]
    have hM : 0 < max x.data.length y.data.length := by omega
    have hMq : (0 : ℚ) < (max x.data.length y.data.length : ℕ) := by
      exact_mod_cast hM
    have hd : ((editDist x.data y.data : ℕ) : ℚ) ≤
        ((max x.data.length y.data.length : ℕ) : ℚ) := by
      exact_mod_cast editDist_le_max x.data y.data
    have hq : ((editDist x.data y.data : ℕ) : ℚ) /
        ((max x.data.length y.data.length : ℕ) : ℚ) ≤ 1 :=
      (div_le_one hMq).mpr hd
    linarith

theorem strSim_le_one (x y : String) : strSim x y ≤ 1 := by
  unfold strSim
  by_cases h : x.data.length = 0 ∧ y.data.length = 0
  · rw [if_pos h]
  · rw [if_neg h]
    have hM : 0 < max x.data.length y.data.length := by omega
    have hMq : (0 : ℚ) < (max x.data.length y.data.length : ℕ) := by
      exact_mod_cast hM
    have hq : (0 : ℚ) ≤ ((editDist x.data y.data : ℕ) : ℚ) /
        ((max x.data.length y.data.length : ℕ) : ℚ) :=
      div_nonneg (by positivity) (le_of_lt hMq)
    linarith

theorem exactTerm_comm (w : ℚ) (a b : Option String) :
    exactTerm w a b = exactTerm w b a := by
  cases a <;> cases b <;> simp [exactTerm, eq_comm]

theorem fuzzyTerm_comm (w : ℚ) (a b : Option String) :
    fuzzyTerm w a b = fuzzyTerm w b a := by
  cases a <;> cases b <;> simp [fuzzyTerm, strSim_comm]

theorem exactTerm_nonneg (w : ℚ) (hw : 0 ≤ w) (a b : Option String) :
    0 ≤ exactTerm w a b := by
  cases a <;> cases b <;> simp [exactTerm]
  split <;> simp [hw]

theorem exactTerm_le (w : ℚ) (hw : 0 ≤ w) (a b : Option String) :
    exactTerm w a b ≤ w := by
  cases a <;> cases b <;> simp [exactTerm, hw]
  split <;> simp [hw]

theorem fuzzyTerm_nonneg (w : ℚ) (hw : 0 ≤ w) (a b : Option String) :
    0 ≤ fuzzyTerm w a b := by
  cases a <;> cases b <;> simp [fuzzyTerm]
  exact mul_nonneg hw (strSim_nonneg _ _)

theorem fuzzyTerm_le (w : ℚ) (hw : 0 ≤ w) (a b : Option String) :
    fuzzyTerm w a b ≤ w := by
  cases a <;> cases b <;> simp [fuzzyTerm, hw]
  calc w * strSim _ _ ≤ w * 1 := by
        exact mul_le_mul_of_nonneg_left (strSim_le_one _ _) hw
    _ = w := mul_one w

/-- C7.  Similarity symmetry and range: the Similarity Scorer is symmetric,
`score(a,b) = score(b,a)`, and always yields a value in [0,100]; it is a
pure total function of the two records, hence deterministic, and missing
fields contribute zero to their term rather than raising an error. -/
theorem similarity_symmetric_in_range (a b : MasterRecord) :
    simScore a b = simScore b a ∧ 0 ≤ simScore a b ∧ simScore a b ≤ 100 := by
  refine ⟨?_, ?_, ?_⟩
  · unfold simScore
    rw [exactTerm_comm 20 (getField a.fields "registrationNumber")
        (getField b.fields "registrationNumber"),
      exactTerm_comm 20 (getField a.fields "taxId") (getField b.fields "taxId"),
      exactTerm_comm 10 (getField a.fields "email") (getField b.fields "email"),
      exactTerm_comm 5 (getField a.fields "phone") (getField b.fields "phone"),
      fuzzyTerm_comm 25 (getField a.fields "name") (getField b.fields "name"),
      fuzzyTerm_comm 10 (getField a.fields "legalName")
        (getField b.fields "legalName"),
      fuzzyTerm_comm 10 (getField a.fields "address") (getField b.fields "address")]
  · unfold simScore
    have h1 := exactTerm_nonneg 20 (by norm_num)
      (getField a.fields "registrationNumber") (getField b.fields "registrationNumber")
    have h2 := exactTerm_nonneg 20 (by norm_num)
      (getField a.fields "taxId") (getField b.fields "taxId")
    have h3 := exactTerm_nonneg 10 (by norm_num)
      (getField a.fields "email") (getField b.fields "email")
    have h4 := exactTerm_nonneg 5 (by norm_num)
      (getField a.fields "phone") (getField b.fields "phone")
    have h5 := fuzzyTerm_nonneg 25 (by norm_num)
      (getField a.fields "name") (getField b.fields "name")
    have h6 := fuzzyTerm_nonneg 10 (by norm_num)
      (getField a.fields "legalName") (getField b.fields "legalName")
    have h7 := fuzzyTerm_nonneg 10 (by norm_num)
      (getField a.fields "address") (getField b.fields "address")
    linarith
  · unfold simScore
    have h1 := exactTerm_le 20 (by norm_num)
      (getField a.fields "registrationNumber") (getField b.fields "registrationNumber")
    have h2 := exactTerm_le 20 (by norm_num)
      (getField a.fields "taxId") (getField b.fields "taxId")
    have h3 := exactTerm_le 10 (by norm_num)
      (getField a.fields "email") (getField b.fields "email")
    have h4 := exactTerm_le 5 (by norm_num)
      (getField a.fields "phone") (getField b.fields "phone")
    have h5 := fuzzyTerm_le 25 (by norm_num)
      (getField a.fields "name") (getField b.fields "name")
    have h6 := fuzzyTerm_le 10 (by norm_num)
      (getField a.fields "legalName") (getField b.fields "legalName")
    have h7 := fuzzyTerm_le 10 (by norm_num)
      (getField a.fields "address") (getField b.fields "address")
    linarith

theorem completeness_nonneg (r : MasterRecord) : 0 ≤ completeness r :=
  div_nonneg (Nat.cast_nonneg _) (Nat.cast_nonneg _)

theorem completeness_le_one (r : MasterRecord) : completeness r ≤ 1 := by
  unfold completeness
  rw [div_le_one (by norm_num [expectedFields])]
  exact_mod_cast List.countP_le_length _

theorem validity_nonneg (r : MasterRecord) : 0 ≤ validity r :=
  div_nonneg (Nat.cast_nonneg _) (Nat.cast_nonneg _)

theorem validity_le_one (r : MasterRecord) : validity r ≤ 1 := by
  unfold validity
  rw [div_le_one (by norm_num [validityChecks])]
  exact_mod_cast List.countP_le_length _

theorem consistency_nonneg (r : MasterRecord) : 0 ≤ consistency r := by
  unfold consistency
  split <;> norm_num

theorem consistency_le_one (r : MasterRecord) : consistency r ≤ 1 := by
  unfold consistency
  split <;> norm_num

/-- C8.  Quality score range and extremes: the overall quality score — the
rounded weighted average of the completeness, validity and consistency
dimensions — is an integer in 0..100 for every record; a record whose
expected fields are all populated and whose formats (including the
cross-field consistency check) are all valid scores exactly 100, and a
record with an empty field map scores exactly 0. -/
theorem quality_score_bounds_and_extremes :
    (∀ r : MasterRecord, 0 ≤ qualityScore r ∧ qualityScore r ≤ 100) ∧
    (∀ r : MasterRecord,
      (∀ f ∈ expectedFields, isNonEmpty (getField r.fields f) = true) →
      (∀ p ∈ validityChecks, validityPass r p = true) →
      countryPhoneConsistent r = true →
      qualityScore r = 100) ∧
    (∀ r : MasterRecord, r.fields = [] → qualityScore r = 0) := by
  refine ⟨?_, ?_, ?_⟩
  · intro r
    have hc0 := completeness_nonneg r
    have hc1 := completeness_le_one r
    have hv0 := validity_nonneg r
    have hv1 := validity_le_one r
    have hk0 := consistency_nonneg r
    have hk1 := consistency_le_one r
    unfold qualityScore ratRound
    constructor
    · exact Int.le_floor.mpr (by push_cast; linarith)
    · have hlt : ⌊100 * (2 / 5 * completeness r + 2 / 5 * validity r +
          1 / 5 * consistency r) + 1 / 2⌋ < (101 : ℤ) :=
        Int.floor_lt.mpr (by push_cast; linarith)
      omega
  · intro r hc hv hk
    have hcq : completeness r = 1 := by
      unfold completeness
      rw [List.countP_eq_length.mpr hc]
      norm_num [expectedFields]
    have hvq : validity r = 1 := by
      unfold validity
      rw [List.countP_eq_length.mpr hv]
      norm_num [validityChecks]
    have hkq : consistency r = 1 := by
      unfold consistency
      rw [if_pos hk]
    unfold qualityScore ratRound
    rw [hcq, hvq, hkq]
    norm_num
  · intro r hr
    have hget : ∀ f, getField r.fields f = none := by
      intro f
      rw [hr]
      rfl
    have hcq : completeness r = 0 := by
      unfold completeness
      rw [List.countP_eq_zero.mpr ?_]
      · norm_num
      · intro f _
        simp [isNonEmpty, hget f]
    have hvq : validity r = 0 := by
      unfold validity
      rw [List.countP_eq_zero.mpr ?_]
      · norm_num
      · intro p _
        simp [validityPass, hget p.1]
    have hkq : consistency r = 0 := by
      unfold consistency
      rw [if_neg ?_]
      simp [countryPhoneConsistent, hget]
    unfold qualityScore ratRound
    rw [hcq, hvq, hkq]
    norm_num

/-- Witness for C8: a fully populated, fully valid record scores 100 and an
empty record scores 0, by direct application of the theorem. -/
theorem quality_score_bounds_and_extremes_witness :
    qualityScore ⟨3, 7, RecordStatus.ACTIVE,
      [("name", "Acme"), ("legalName", "Acme LLC"),
       ("registrationNumber", "R1"), ("taxId", "12345"),
       ("email", "a@b.com"), ("phone", "+9665550001"),
       ("address", "1 Main St"), ("city", "Riyadh"), ("country", "SA")],
      0, 0⟩ = 100 ∧
    qualityScore ⟨4, 7, RecordStatus.ACTIVE, [], 0, 0⟩ = 0 :=
  ⟨quality_score_bounds_and_extremes.2.1 _ (by decide) (by decide) (by decide),
   quality_score_bounds_and_extremes.2.2 _ rfl⟩

theorem mergeUpd_id (c : MergeCall) (nf : List (String × String))
    (r : MasterRecord) : (mergeUpd c nf r).id = r.id := by
  unfold mergeUpd
  split
  · rfl
  · split <;> rfl

theorem mergeUpd_tenantId (c : MergeCall) (nf : List (String × String))
    (r : MasterRecord) : (mergeUpd c nf r).tenantId = r.tenantId := by
  unfold mergeUpd
  split
  · rfl
  · split <;> rfl

theorem unmergeUpd_id (c : UnmergeCall) (log : MergeLog)
    (r : MasterRecord) : (unmergeUpd c log r).id = r.id := by
  unfold unmergeUpd
  split
  · rfl
  · split <;> rfl

theorem unmergeUpd_tenantId (c : UnmergeCall) (log : MergeLog)
    (r : MasterRecord) : (unmergeUpd c log r).tenantId = r.tenantId := by
  unfold unmergeUpd
  split
  · rfl
  · split <;> rfl

theorem flipLog_id (lid : Nat) (l : MergeLog) : (flipLog lid l).id = l.id := by
  unfold flipLog
  split <;> rfl

/-- `find?` with an id/tenant predicate commutes with mapping a row update
that preserves ids and tenants. -/
theorem find?_records_map (l : List MasterRecord) (f : MasterRecord → MasterRecord)
    (hid : ∀ r, (f r).id = r.id) (ht : ∀ r, (f r).tenantId = r.tenantId)
    (t rid : Nat) :
    (l.map f).find? (fun r => r.id == rid && r.tenantId == t) =
      (l.find? (fun r => r.id == rid && r.tenantId == t)).map f := by
  induction l with
  | nil => rfl
  | cons a l ih =>
    simp only [List.map_cons, List.find?_cons, hid, ht]
    cases h : (a.id == rid && a.tenantId == t)
    · simpa [h] using ih
    · simp [h]

theorem mergePre_inv {S : MdmState} {c : MergeCall} {m d : MasterRecord}
    {rule : Option SurvivorshipRule}
    (h : mergePre S c = Except.ok (m, d, rule)) :
    c.masterId ≠ c.duplicateId ∧
    findRecord S c.tenantId c.masterId = some m ∧
    findRecord S c.tenantId c.duplicateId = some d ∧
    m.status = RecordStatus.ACTIVE ∧
    d.status = RecordStatus.ACTIVE ∧
    (c.ruleId = none → rule = none) := by
  unfold mergePre at h
  split at h
  · cases h
  next h0 =>
  split at h
  · cases h
  next m' hm =>
  split at h
  · cases h
  next d' hd =>
  split at h
  · cases h
  next hms =>
  split at h
  · cases h
  next hds =>
  split at h
  next hrid =>
    simp only [Except.ok.injEq, Prod.mk.injEq] at h
    obtain ⟨rfl, rfl, rfl⟩ := h
    exact ⟨by simpa using h0, hm, hd, not_ne_iff.mp hms,
      not_ne_iff.mp hds, fun _ => rfl⟩
  next rid hrid =>
    split at h
    · cases h
    next ru hru =>
      simp only [Except.ok.injEq, Prod.mk.injEq] at h
      obtain ⟨rfl, rfl, rfl⟩ := h
      exact ⟨by simpa using h0, hm, hd, not_ne_iff.mp hms,
        not_ne_iff.mp hds, fun hc => by rw [hrid] at hc; cases hc⟩

theorem mergeCommit_inv {ec : CustomEval} {S : MdmState} {c : MergeCall}
    {m d : MasterRecord} {rule : Option SurvivorshipRule}
    {S' : MdmState} {L : Nat} {r : MasterRecord}
    (h : mergeCommit ec S c m d rule = Except.ok (S', L, r)) :
    participatesActive S c.tenantId c.masterId = false ∧
    participatesActive S c.tenantId c.duplicateId = false ∧
    S' = mergeApply ec S c m d rule ∧ L = S.nextLogId ∧
    r = { m with fields := resolvedFields ec rule m d,
                 updatedAt := c.now, updatedBy := c.byUser } := by
  unfold mergeCommit at h
  split at h
  · cases h
  next hp =>
    simp only [Bool.or_eq_true, not_or, Bool.not_eq_true] at hp
    simp only [Except.ok.injEq, Prod.mk.injEq] at h
    obtain ⟨rfl, rfl, rfl⟩ := h
    exact ⟨hp.1, hp.2, rfl, rfl, rfl⟩

theorem mergeParties_ok_inv {ec : CustomEval} {S : MdmState} {c : MergeCall}
    {S' : MdmState} {L : Nat} {r : MasterRecord}
    (h : mergeParties ec S c = Except.ok (S', L, r)) :
    ∃ m d rule, mergePre S c = Except.ok (m, d, rule) ∧
      mergeCommit ec S c m d rule = Except.ok (S', L, r) := by
  unfold mergeParties at h
  cases hpre : mergePre S c with
  | error e => rw [hpre] at h; cases h
  | ok x =>
    obtain ⟨m, d, rule⟩ := x
    rw [hpre] at h
    exact ⟨m, d, rule, rfl, h⟩

theorem unmergeParty_ok_inv {S : MdmState} {c : UnmergeCall}
    {S' : MdmState} {a b : Nat}
    (h : unmergeParty S c = Except.ok (S', a, b)) :
    ∃ log, findLog S c.tenantId c.mergeLogId = some log ∧
      log.status = LogStatus.ACTIVE ∧
      S' = unmergeApply S c log ∧
      a = log.masterRecordId ∧ b = log.duplicateRecordId := by
  unfold unmergeParty at h
  split at h
  · cases h
  next log hl =>
  split at h
  · cases h
  next hs =>
    simp only [Except.ok.injEq, Prod.mk.injEq] at h
    obtain ⟨rfl, rfl, rfl⟩ := h
    exact ⟨log, hl, not_ne_iff.mp hs, rfl, rfl, rfl⟩

theorem getField_cons (k' v : String) (rest : List (String × String)) (k : String) :
    getField ((k', v) :: rest) k = if k' == k then some v else getField rest k := by
  unfold getField
  rw [List.find?_cons]
  cases h : (k' == k) <;> simp [h]

theorem getField_filterMap (keys : List String) (g : String → Option String)
    (k : String) :
    getField (keys.filterMap (fun x => (g x).map (fun v => (x, v)))) k =
      if k ∈ keys then g k else none := by
  induction keys with
  | nil => simp [getField]
  | cons k' keys ih =>
    cases hg : g k' with
    | none =>
      rw [List.filterMap_cons]
      simp only [hg, Option.map_none']
      rw [ih]
      by_cases hk : k' = k
      · subst hk
        simp [hg]
      · have hiff : (k = k' ∨ k ∈ keys) ↔ k ∈ keys :=
          or_iff_right (fun hh => hk hh.symm)
        simp only [List.mem_cons, hiff]
    | some v =>
      rw [List.filterMap_cons]
      simp only [hg, Option.map_some']
      rw [getField_cons]
      by_cases hk : k' = k
      · subst hk
        simp [hg]
      · rw [if_neg (by simpa using hk), ih]
        have hiff : (k = k' ∨ k ∈ keys) ↔ k ∈ keys :=
          or_iff_right (fun hh => hk hh.symm)
        simp only [List.mem_cons, hiff]

theorem getField_eq_none_of_not_mem (fs : List (String × String)) (k : String)
    (h : k ∉ fs.map Prod.fst) : getField fs k = none := by
  unfold getField
  rw [List.find?_eq_none.mpr]
  · rfl
  · intro p hp hpk
    exact h (List.mem_map.mpr ⟨p, hp, by simpa using hpk⟩)

/-- With no rule, every field resolves to the master's value, so the merged
field map agrees with the master's field map at every field name. -/
theorem resolvedFields_none (ec : CustomEval) (m d : MasterRecord) (k : String) :
    getField (resolvedFields ec none m d) k = getField m.fields k := by
  unfold resolvedFields
  have hfun : (fun x => (resolveField ec (strategyFor none x)
        ((none : Option SurvivorshipRule).bind (·.customLogic))
        (getField m.fields x) (getField d.fields x)
        m.updatedAt d.updatedAt).map (fun v => (x, v)))
      = fun x => (getField m.fields x).map (fun v => (x, v)) := by
    funext x
    rfl
  rw [hfun, getField_filterMap]
  by_cases hmem : k ∈ (m.fields.map Prod.fst ++ d.fields.map Prod.fst).dedup
  · rw [if_pos hmem]
  · rw [if_neg hmem]
    refine (getField_eq_none_of_not_mem m.fields k ?_).symm
    intro hk
    exact hmem (List.mem_dedup.mpr (List.mem_append_left _ hk))

/-- C6.  Default-policy merge frame: a merge executed with no survivorship
rule resolves every field to the master's value — the merged master agrees
with the pre-merge master on every field name and on id, tenant and status,
and only the merge metadata `updatedAt`/`updatedBy` is rewritten; the
stored master row of the post-merge state is exactly that merged record. -/
theorem default_policy_frame (ec : CustomEval) (S : MdmState) (c : MergeCall)
    (S1 : MdmState) (L : Nat) (merged : MasterRecord)
    (hrule : c.ruleId = none)
    (h : mergeParties ec S c = Except.ok (S1, L, merged)) :
    ∃ m, findRecord S c.tenantId c.masterId = some m ∧
      merged.id = m.id ∧ merged.tenantId = m.tenantId ∧
      merged.status = m.status ∧
      merged.updatedAt = c.now ∧ merged.updatedBy = c.byUser ∧
      (∀ k, getField merged.fields k = getField m.fields k) ∧
      findRecord S1 c.tenantId c.masterId = some merged := by
  obtain ⟨m, d, rule, hpre, hcom⟩ := mergeParties_ok_inv h
  obtain ⟨hne, hm, hd, hms, hds, hrnone⟩ := mergePre_inv hpre
  obtain ⟨hp1, hp2, hS1, hL, hr⟩ := mergeCommit_inv hcom
  have hrn : rule = none := hrnone hrule
  subst hrn
  refine ⟨m, hm, by rw [hr], by rw [hr], by rw [hr], by rw [hr], by rw [hr],
    ?_, ?_⟩
  · intro k
    rw [hr]
    exact resolvedFields_none ec m d k
  · have hm' : S.records.find?
        (fun r => r.id == c.masterId && r.tenantId == c.tenantId) = some m := hm
    have hpm : (m.id == c.masterId && m.tenantId == c.tenantId) = true :=
      @List.find?_some MasterRecord
        (fun r => r.id == c.masterId && r.tenantId == c.tenantId) m S.records hm'
    have hupd : mergeUpd c (resolvedFields ec none m d) m = merged := by
      unfold mergeUpd
      rw [if_pos hpm, hr]
    rw [hS1]
    unfold findRecord mergeApply
    rw [find?_records_map _ _ (mergeUpd_id c _) (mergeUpd_tenantId c _)]
    have : (S.records.find? fun r => r.id == c.masterId && r.tenantId == c.tenantId)
        = some m := hm
    rw [this, Option.map_some', hupd]

/-- C2.  Double-merge exclusion under the atomic-commit concurrency model of
§5: two merge calls of one tenant that reference the same duplicate id,
each of which would succeed on its own against the shared initial state,
cannot both commit — whichever commit is serialized second fails its atomic
"active merge participation" check with `AlreadyMergedError`, in either
serialization order, so exactly one call succeeds and the other fails with
`AlreadyMergedError`. -/
theorem double_merge_exclusion (ec1 ec2 : CustomEval) (S S1 S2 : MdmState)
    (c1 c2 : MergeCall) (L1 L2 : Nat) (r1 r2 : MasterRecord)
    (hten : c2.tenantId = c1.tenantId) (hdup : c2.duplicateId = c1.duplicateId)
    (h1 : mergeParties ec1 S c1 = Except.ok (S1, L1, r1))
    (h2 : mergeParties ec2 S c2 = Except.ok (S2, L2, r2)) :
    (∀ m d rule, mergePre S c2 = Except.ok (m, d, rule) →
      mergeCommit ec2 S1 c2 m d rule = Except.error MdmError.AlreadyMergedError) ∧
    (∀ m d rule, mergePre S c1 = Except.ok (m, d, rule) →
      mergeCommit ec1 S2 c1 m d rule = Except.error MdmError.AlreadyMergedError) := by
  obtain ⟨m1, d1, rule1, hpre1, hcom1⟩ := mergeParties_ok_inv h1
  obtain ⟨m2, d2, rule2, hpre2, hcom2⟩ := mergeParties_ok_inv h2
  obtain ⟨_, _, hS1, _, _⟩ := mergeCommit_inv hcom1
  obtain ⟨_, _, hS2, _, _⟩ := mergeCommit_inv hcom2
  constructor
  · intro m d rule _
    have hpart : participatesActive S1 c2.tenantId c2.duplicateId = true := by
      rw [hS1]
      unfold participatesActive mergeApply
      refine List.any_eq_true.mpr ⟨mkLog S c1 m1 d1, ?_, ?_⟩
      · exact List.mem_append_right _ (List.mem_singleton.mpr rfl)
      · simp [mkLog, hten, hdup]
    unfold mergeCommit
    rw [hpart]
    simp
  · intro m d rule _
    have hpart : participatesActive S2 c1.tenantId c1.duplicateId = true := by
      rw [hS2]
      unfold participatesActive mergeApply
      refine List.any_eq_true.mpr ⟨mkLog S c2 m2 d2, ?_, ?_⟩
      · exact List.mem_append_right _ (List.mem_singleton.mpr rfl)
      · simp [mkLog, hten, hdup]
    unfold mergeCommit
    rw [hpart]
    simp

/-- C1.  Round-trip law: whenever a merge succeeds and yields mergeLogId
`L`, immediately unmerging `L` in the same tenant succeeds and restores
both the master's and the duplicate's full field state (and the
duplicate's ACTIVE status) exactly to their pre-merge values — for every
survivorship rule and every CUSTOM evaluator, because unmerge restores the
complete snapshots.  The freshness hypothesis (existing log ids below the
id counter) is the log-id discipline maintained by the engine itself. -/
theorem merge_unmerge_round_trip (ec : CustomEval) (S : MdmState)
    (c : MergeCall) (S1 : MdmState) (L : Nat) (merged : MasterRecord)
    (uc : UnmergeCall)
    (hfresh : ∀ l ∈ S.logs, l.id < S.nextLogId)
    (h : mergeParties ec S c = Except.ok (S1, L, merged))
    (hut : uc.tenantId = c.tenantId) (hul : uc.mergeLogId = L) :
    ∃ S2, unmergeParty S1 uc = Except.ok (S2, c.masterId, c.duplicateId) ∧
      (findRecord S2 c.tenantId c.masterId).map (fun r => (r.fields, r.status)) =
        (findRecord S c.tenantId c.masterId).map (fun r => (r.fields, r.status)) ∧
      (findRecord S2 c.tenantId c.duplicateId).map (fun r => (r.fields, r.status)) =
        (findRecord S c.tenantId c.duplicateId).map (fun r => (r.fields, r.status)) ∧
      (findRecord S2 c.tenantId c.duplicateId).map (fun r => r.status) =
        some RecordStatus.ACTIVE := by
  obtain ⟨m, d, rule, hpre, hcom⟩ := mergeParties_ok_inv h
  obtain ⟨hne, hm, hd, hms, hds, -⟩ := mergePre_inv hpre
  obtain ⟨hp1, hp2, hS1, hL, hr⟩ := mergeCommit_inv hcom
  have hun : uc.mergeLogId = S.nextLogId := by rw [hul, hL]
  have hm' : S.records.find?
      (fun r => r.id == c.masterId && r.tenantId == c.tenantId) = some m := hm
  have hd' : S.records.find?
      (fun r => r.id == c.duplicateId && r.tenantId == c.tenantId) = some d := hd
  have hpm : (m.id == c.masterId && m.tenantId == c.tenantId) = true :=
    @List.find?_some MasterRecord
      (fun r => r.id == c.masterId && r.tenantId == c.tenantId) m S.records hm'
  have hpd : (d.id == c.duplicateId && d.tenantId == c.tenantId) = true :=
    @List.find?_some MasterRecord
      (fun r => r.id == c.duplicateId && r.tenantId == c.tenantId) d S.records hd'
  obtain ⟨hmid, hmten⟩ : m.id = c.masterId ∧ m.tenantId = c.tenantId := by
    simpa using hpm
  obtain ⟨hdid, hdten⟩ : d.id = c.duplicateId ∧ d.tenantId = c.tenantId := by
    simpa using hpd
  have hflog : findLog S1 uc.tenantId uc.mergeLogId = some (mkLog S c m d) := by
    rw [hS1]
    unfold findLog mergeApply
    rw [List.find?_append]
    have hnone : S.logs.find?
        (fun l => l.id == uc.mergeLogId && l.tenantId == uc.tenantId) = none := by
      refine List.find?_eq_none.mpr ?_
      intro l hl
      have hlt := hfresh l hl
      simp only [Bool.and_eq_true, beq_iff_eq, not_and]
      intro hid
      exfalso
      rw [hun] at hid
      omega
    rw [hnone]
    have hcond : ((mkLog S c m d).id == uc.mergeLogId &&
        (mkLog S c m d).tenantId == uc.tenantId) = true := by
      simp [mkLog, hun, hut]
    simp [hcond]
  set nf := resolvedFields ec rule m d with hnf
  have hcm : (mergeUpd c nf m) =
      { m with fields := nf, updatedAt := c.now, updatedBy := c.byUser } := by
    unfold mergeUpd
    rw [if_pos hpm]
  have hcd : (mergeUpd c nf d) = { d with status := RecordStatus.MERGED } := by
    unfold mergeUpd
    rw [if_neg ?_, if_pos hpd]
    rw [hdid]
    simp only [Bool.and_eq_true, beq_iff_eq, not_and]
    intro hdm
    exact absurd hdm.symm hne
  have hum : unmergeUpd uc (mkLog S c m d) (mergeUpd c nf m) =
      { m with updatedAt := uc.now, updatedBy := uc.byUser } := by
    rw [hcm]
    unfold unmergeUpd
    rw [if_neg ?_, if_pos ?_]
    · simp [mkLog, mkSnap]
    · simp only [mkLog, Bool.and_eq_true, beq_iff_eq]
      exact ⟨hmid, by rw [hmten, hut]⟩
    · simp only [mkLog, Bool.and_eq_true, beq_iff_eq, not_and]
      intro hmd
      rw [hmid] at hmd
      exact absurd hmd hne
  have hud : unmergeUpd uc (mkLog S c m d) (mergeUpd c nf d) =
      { d with status := RecordStatus.ACTIVE,
               updatedAt := uc.now, updatedBy := uc.byUser } := by
    rw [hcd]
    unfold unmergeUpd
    rw [if_pos ?_]
    · simp [mkLog, mkSnap]
    · simp only [mkLog, Bool.and_eq_true, beq_iff_eq]
      exact ⟨hdid, by rw [hdten, hut]⟩
  have hrec : ∀ rid : Nat,
      findRecord (unmergeApply S1 uc (mkLog S c m d)) c.tenantId rid =
        (S.records.find? (fun r => r.id == rid && r.tenantId == c.tenantId)).map
          (fun r => unmergeUpd uc (mkLog S c m d) (mergeUpd c nf r)) := by
    intro rid
    unfold findRecord unmergeApply
    rw [hS1]
    unfold mergeApply
    rw [find?_records_map _ _ (unmergeUpd_id uc _) (unmergeUpd_tenantId uc _),
      find?_records_map _ _ (mergeUpd_id c _) (mergeUpd_tenantId c _),
      Option.map_map]
    rfl
  refine ⟨unmergeApply S1 uc (mkLog S c m d), ?_, ?_, ?_, ?_⟩
  · unfold unmergeParty
    rw [hflog]
    simp [mkLog]
  · rw [hrec c.masterId]
    unfold findRecord
    rw [hm']
    simp only [Option.map_some']
    rw [hum]
  · rw [hrec c.duplicateId]
    unfold findRecord
    rw [hd']
    simp only [Option.map_some']
    rw [hud]
    simp [hds]
  · rw [hrec c.duplicateId]
    rw [hd']
    simp only [Option.map_some']
    rw [hud]

/-- Witness for C6: the default-policy merge of the §8 example leaves every
master field unchanged, by direct application of the theorem. -/
theorem default_policy_frame_witness :
    ∃ m, findRecord exState exMerge.tenantId exMerge.masterId = some m ∧
      (⟨1, 7, RecordStatus.ACTIVE,
        resolvedFields exEval none exRecA exRecB, 100, 9⟩ : MasterRecord).id = m.id ∧
      (⟨1, 7, RecordStatus.ACTIVE,
        resolvedFields exEval none exRecA exRecB, 100, 9⟩ : MasterRecord).tenantId = m.tenantId ∧
      (⟨1, 7, RecordStatus.ACTIVE,
        resolvedFields exEval none exRecA exRecB, 100, 9⟩ : MasterRecord).status = m.status ∧
      (⟨1, 7, RecordStatus.ACTIVE,
        resolvedFields exEval none exRecA exRecB, 100, 9⟩ : MasterRecord).updatedAt = exMerge.now ∧
      (⟨1, 7, RecordStatus.ACTIVE,
        resolvedFields exEval none exRecA exRecB, 100, 9⟩ : MasterRecord).updatedBy = exMerge.byUser ∧
      (∀ k, getField (⟨1, 7, RecordStatus.ACTIVE,
        resolvedFields exEval none exRecA exRecB, 100, 9⟩ : MasterRecord).fields k =
          getField m.fields k) ∧
      findRecord (mergeApply exEval exState exMerge exRecA exRecB none)
          exMerge.tenantId exMerge.masterId =
        some ⟨1, 7, RecordStatus.ACTIVE,
          resolvedFields exEval none exRecA exRecB, 100, 9⟩ :=
  default_policy_frame exEval exState exMerge
    (mergeApply exEval exState exMerge exRecA exRecB none) 5
    ⟨1, 7, RecordStatus.ACTIVE, resolvedFields exEval none exRecA exRecB, 100, 9⟩
    rfl (by rfl)

/-- Witness for C2: the two competing merges of records 1←2 and 3←2 both
succeed in isolation from the example state, and the theorem yields that
the second-serialized commit fails with `AlreadyMergedError` in either
order. -/
theorem double_merge_exclusion_witness :
    (∀ m d rule, mergePre exState exMerge2 = Except.ok (m, d, rule) →
      mergeCommit exEval (mergeApply exEval exState exMerge exRecA exRecB none)
          exMerge2 m d rule = Except.error MdmError.AlreadyMergedError) ∧
    (∀ m d rule, mergePre exState exMerge = Except.ok (m, d, rule) →
      mergeCommit exEval (mergeApply exEval exState exMerge2 exRecC exRecB none)
          exMerge m d rule = Except.error MdmError.AlreadyMergedError) :=
  double_merge_exclusion exEval exEval exState
    (mergeApply exEval exState exMerge exRecA exRecB none)
    (mergeApply exEval exState exMerge2 exRecC exRecB none)
    exMerge exMerge2 5 5
    ⟨1, 7, RecordStatus.ACTIVE, resolvedFields exEval none exRecA exRecB, 100, 9⟩
    ⟨3, 7, RecordStatus.ACTIVE, resolvedFields exEval none exRecC exRecB, 100, 9⟩
    rfl rfl (by rfl) (by rfl)

/-- Witness for C1: merging record 2 into record 1 and immediately
unmerging log 5 restores both records' field state and the duplicate's
ACTIVE status, by direct application of the theorem. -/
theorem merge_unmerge_round_trip_witness :
    ∃ S2, unmergeParty (mergeApply exEval exState exMerge exRecA exRecB none)
        exUnmerge = Except.ok (S2, exMerge.masterId, exMerge.duplicateId) ∧
      (findRecord S2 exMerge.tenantId exMerge.masterId).map
          (fun r => (r.fields, r.status)) =
        (findRecord exState exMerge.tenantId exMerge.masterId).map
          (fun r => (r.fields, r.status)) ∧
      (findRecord S2 exMerge.tenantId exMerge.duplicateId).map
          (fun r => (r.fields, r.status)) =
        (findRecord exState exMerge.tenantId exMerge.duplicateId).map
          (fun r => (r.fields, r.status)) ∧
      (findRecord S2 exMerge.tenantId exMerge.duplicateId).map
          (fun r => r.status) = some RecordStatus.ACTIVE :=
  merge_unmerge_round_trip exEval exState exMerge
    (mergeApply exEval exState exMerge exRecA exRecB none) 5
    ⟨1, 7, RecordStatus.ACTIVE, resolvedFields exEval none exRecA exRecB, 100, 9⟩
    exUnmerge (by simp [exState]) (by rfl) rfl rfl

theorem candidateOrder_trans : ∀ a b c : Nat × ℚ,
    candidateOrder a b → candidateOrder b c → candidateOrder a c := by
  intro a b c h1 h2
  simp only [candidateOrder, Bool.or_eq_true, Bool.and_eq_true,
    decide_eq_true_eq, beq_iff_eq] at h1 h2 ⊢
  rcases h1 with h1 | ⟨h1e, h1i⟩ <;> rcases h2 with h2 | ⟨h2e, h2i⟩
  · exact Or.inl (lt_trans h2 h1)
  · exact Or.inl (h2e ▸ h1)
  · exact Or.inl (by rw [h1e]; exact h2)
  · exact Or.inr ⟨h1e.trans h2e, le_trans h1i h2i⟩

theorem candidateOrder_total : ∀ a b : Nat × ℚ,
    candidateOrder a b || candidateOrder b a := by
  intro a b
  simp only [candidateOrder, Bool.or_eq_true, Bool.and_eq_true,
    decide_eq_true_eq, beq_iff_eq]
  rcases lt_trichotomy a.2 b.2 with h | h | h
  · exact Or.inr (Or.inl h)
  · rcases le_total a.1 b.1 with hi | hi
    · exact Or.inl (Or.inr ⟨h, hi⟩)
    · exact Or.inr (Or.inr ⟨h.symm, hi⟩)
  · exact Or.inl (Or.inl h)

theorem candidateOrder_iff (a b : Nat × ℚ) :
    candidateOrder a b = true ↔ (b.2 < a.2 ∨ (a.2 = b.2 ∧ a.1 ≤ b.1)) := by
  simp [candidateOrder]

/-- C4.  `findDuplicates` postcondition: for an existing target record and a
threshold in [0,100], the result consists of exactly the pairs
`(candidateId, score)` of the tenant's ACTIVE records other than the target
and records actively linked to it whose similarity score reaches the
threshold, and it is sorted by score descending with ties broken by
candidate id ascending. -/
theorem findDuplicates_post (S : MdmState) (t target : Nat) (θ : ℚ)
    (tr : MasterRecord) (hθ0 : 0 ≤ θ) (hθ1 : θ ≤ 100)
    (htr : findRecord S t target = some tr) :
    ∃ res, findPartyDuplicates S t target θ = Except.ok res ∧
      (∀ p : Nat × ℚ, p ∈ res ↔ ∃ r ∈ S.records,
        r.tenantId = t ∧ r.status = RecordStatus.ACTIVE ∧ r.id ≠ target ∧
        isLinkedActive S t target r.id = false ∧
        p = (r.id, simScore tr r) ∧ θ ≤ simScore tr r) ∧
      res.Pairwise (fun a b => b.2 < a.2 ∨ (a.2 = b.2 ∧ a.1 ≤ b.1)) := by
  have hres : findPartyDuplicates S t target θ =
      Except.ok ((((S.records.filter (fun r =>
          r.tenantId == t && r.status == RecordStatus.ACTIVE &&
            r.id != target && !(isLinkedActive S t target r.id))).map
            (fun r => (r.id, simScore tr r))).filter
            (fun p => θ ≤ p.2)).mergeSort candidateOrder) := by
    unfold findPartyDuplicates
    rw [htr]
  refine ⟨_, hres, ?_, ?_⟩
  · intro p
    rw [List.mem_mergeSort]
    simp only [List.mem_filter, List.mem_map, decide_eq_true_eq]
    constructor
    · rintro ⟨⟨r, ⟨hrmem, hcond⟩, rfl⟩, hsc⟩
      simp only [Bool.and_eq_true, beq_iff_eq, bne_iff_ne,
        Bool.not_eq_true'] at hcond
      obtain ⟨⟨⟨h1, h2⟩, h3⟩, h4⟩ := hcond
      exact ⟨r, hrmem, h1, h2, h3, h4, rfl, hsc⟩
    · rintro ⟨r, hrmem, h1, h2, h3, h4, rfl, hsc⟩
      refine ⟨⟨r, ⟨hrmem, ?_⟩, rfl⟩, hsc⟩
      simp only [Bool.and_eq_true, beq_iff_eq, bne_iff_ne, Bool.not_eq_true']
      exact ⟨⟨⟨h1, h2⟩, h3⟩, h4⟩
  · refine List.Pairwise.imp ?_
      (List.sorted_mergeSort candidateOrder_trans candidateOrder_total _)
    intro a b hab
    exact (candidateOrder_iff a b).mp hab

/-- Witness for C4: duplicate discovery from the example state at threshold
0 around target record 1, by direct application of the theorem. -/
theorem findDuplicates_post_witness :
    ∃ res, findPartyDuplicates exState 7 1 0 = Except.ok res ∧
      (∀ p : Nat × ℚ, p ∈ res ↔ ∃ r ∈ exState.records,
        r.tenantId = 7 ∧ r.status = RecordStatus.ACTIVE ∧ r.id ≠ 1 ∧
        isLinkedActive exState 7 1 r.id = false ∧
        p = (r.id, simScore exRecA r) ∧ (0 : ℚ) ≤ simScore exRecA r) ∧
      res.Pairwise (fun a b => b.2 < a.2 ∨ (a.2 = b.2 ∧ a.1 ≤ b.1)) :=
  findDuplicates_post exState 7 1 0 exRecA (by norm_num) (by norm_num) (by rfl)

theorem eq_of_pairwise_keys {l : List MasterRecord}
    (h : l.Pairwise (fun a b => a.id ≠ b.id ∨ a.tenantId ≠ b.tenantId))
    {a b : MasterRecord} (ha : a ∈ l) (hb : b ∈ l)
    (hid : a.id = b.id) (ht : a.tenantId = b.tenantId) : a = b := by
  induction l with
  | nil => cases ha
  | cons x rest ih =>
    obtain ⟨hx, hrest⟩ := List.pairwise_cons.mp h
    rcases List.mem_cons.mp ha with rfl | ha'
    · rcases List.mem_cons.mp hb with rfl | hb'
      · rfl
      · rcases hx b hb' with hne | hne
        · exact absurd hid hne
        · exact absurd ht hne
    · rcases List.mem_cons.mp hb with rfl | hb'
      · rcases hx a ha' with hne | hne
        · exact absurd hid.symm hne
        · exact absurd ht.symm hne
      · exact ih hrest ha' hb'

theorem eq_of_pairwise_log_ids {l : List MergeLog}
    (h : l.Pairwise (fun a b => a.id ≠ b.id))
    {a b : MergeLog} (ha : a ∈ l) (hb : b ∈ l) (hid : a.id = b.id) : a = b := by
  induction l with
  | nil => cases ha
  | cons x rest ih =>
    obtain ⟨hx, hrest⟩ := List.pairwise_cons.mp h
    rcases List.mem_cons.mp ha with rfl | ha'
    · rcases List.mem_cons.mp hb with rfl | hb'
      · rfl
      · exact absurd hid (hx b hb')
    · rcases List.mem_cons.mp hb with rfl | hb'
      · exact absurd hid.symm (hx a ha')
      · exact ih hrest ha' hb'

/-- Flipping the unique log with a given id changes a `countP` by swapping
that log's contribution. -/
theorem countP_map_flip (logs : List MergeLog) (log : MergeLog)
    (hmem : log ∈ logs) (hpw : logs.Pairwise (fun a b => a.id ≠ b.id))
    (p : MergeLog → Bool) :
    logs.countP (fun l => p (flipLog log.id l)) + (if p log then 1 else 0) =
      logs.countP p + (if p (flipLog log.id log) then 1 else 0) := by
  induction logs with
  | nil => cases hmem
  | cons x rest ih =>
    obtain ⟨hx, hrest⟩ := List.pairwise_cons.mp hpw
    rcases List.mem_cons.mp hmem with rfl | hmem'
    · rw [List.countP_cons, List.countP_cons]
      have hsame : rest.countP (fun l => p (flipLog log.id l)) =
          rest.countP p := by
        refine List.countP_congr ?_
        intro l hl
        have hne : l.id ≠ log.id := fun hh => (hx l hl) hh.symm
        rw [flipLog, if_neg (by simpa using hne)]
      rw [hsame]
      omega
    · have hxne : x.id ≠ log.id := hx log hmem'
      have hxflip : flipLog log.id x = x := by
        rw [flipLog, if_neg (by simpa using hxne)]
      rw [List.countP_cons, List.countP_cons, hxflip]
      have := ih hmem' hrest
      omega

/-- The duplicate-participation count after a committed merge: the new
ACTIVE log adds one exactly for the merged duplicate's (tenant, id). -/
theorem activeDupCount_mergeApply (ec : CustomEval) (S : MdmState)
    (c : MergeCall) (m d : MasterRecord) (rule : Option SurvivorshipRule)
    (t0 rid0 : Nat) :
    activeDupCount (mergeApply ec S c m d rule) t0 rid0 =
      activeDupCount S t0 rid0 +
        (if c.tenantId = t0 ∧ c.duplicateId = rid0 then 1 else 0) := by
  unfold activeDupCount mergeApply
  rw [List.countP_append]
  congr 1
  by_cases h1 : c.tenantId = t0
  · by_cases h2 : c.duplicateId = rid0
    · simp [List.countP_cons, mkLog, h1, h2]
    · simp [List.countP_cons, mkLog, h1, h2]
  · simp [List.countP_cons, mkLog, h1]

/-- Merge preserves the invariant and evolves the logs by appending exactly
one fresh ACTIVE log. -/
theorem mergeParties_preserves {ec : CustomEval} {S : MdmState} {c : MergeCall}
    {S' : MdmState} {L : Nat} {rr : MasterRecord}
    (h : mergeParties ec S c = Except.ok (S', L, rr))
    (hinv : mergeInvariant S) : mergeInvariant S' ∧ logsEvolve S S' := by
  obtain ⟨m, d, rule, hpre, hcom⟩ := mergeParties_ok_inv h
  obtain ⟨hne, hm, hd, hms, hds, -⟩ := mergePre_inv hpre
  obtain ⟨-, -, hS', -, -⟩ := mergeCommit_inv hcom
  obtain ⟨hkeys, ⟨hbound, hlpw⟩, hcount⟩ := hinv
  have hm' : S.records.find?
      (fun r => r.id == c.masterId && r.tenantId == c.tenantId) = some m := hm
  have hd' : S.records.find?
      (fun r => r.id == c.duplicateId && r.tenantId == c.tenantId) = some d := hd
  have hmmem : m ∈ S.records := List.mem_of_find?_eq_some hm'
  have hdmem : d ∈ S.records := List.mem_of_find?_eq_some hd'
  have hpm : (m.id == c.masterId && m.tenantId == c.tenantId) = true :=
    @List.find?_some MasterRecord
      (fun r => r.id == c.masterId && r.tenantId == c.tenantId) m S.records hm'
  have hpd : (d.id == c.duplicateId && d.tenantId == c.tenantId) = true :=
    @List.find?_some MasterRecord
      (fun r => r.id == c.duplicateId && r.tenantId == c.tenantId) d S.records hd'
  obtain ⟨hmid, hmten⟩ : m.id = c.masterId ∧ m.tenantId = c.tenantId := by
    simpa using hpm
  obtain ⟨hdid, hdten⟩ : d.id = c.duplicateId ∧ d.tenantId = c.tenantId := by
    simpa using hpd
  subst hS'
  refine ⟨⟨?_, ⟨?_, ?_⟩, ?_⟩, ?_, ?_⟩
  · unfold recordKeysUnique mergeApply
    rw [List.pairwise_map]
    exact hkeys.imp (fun hab => by
      rwa [mergeUpd_id, mergeUpd_id, mergeUpd_tenantId, mergeUpd_tenantId])
  · intro l hl
    rcases List.mem_append.mp hl with hl' | hl'
    · have := hbound l hl'
      simp only [mergeApply]
      omega
    · rw [List.mem_singleton.mp hl']
      simp [mergeApply, mkLog]
  · show (S.logs ++ [mkLog S c m d]).Pairwise (fun a b => a.id ≠ b.id)
    rw [List.pairwise_append]
    refine ⟨hlpw, by simp, ?_⟩
    intro a ha b hb
    rw [List.mem_singleton.mp hb]
    have := hbound a ha
    simp only [mkLog]
    omega
  · intro r' hr'
    obtain ⟨r, hrmem, rfl⟩ := List.mem_map.mp hr'
    rw [mergeUpd_tenantId, mergeUpd_id, activeDupCount_mergeApply]
    have hcnt := hcount r hrmem
    by_cases hb1 : (r.id == c.masterId && r.tenantId == c.tenantId) = true
    · obtain ⟨h1, h2⟩ : r.id = c.masterId ∧ r.tenantId = c.tenantId := by
        simpa using hb1
      have hrm : r = m :=
        eq_of_pairwise_keys hkeys hrmem hmmem (by rw [h1, hmid])
          (by rw [h2, hmten])
      have hupd : mergeUpd c (resolvedFields ec rule m d) r =
          { r with fields := resolvedFields ec rule m d,
                   updatedAt := c.now, updatedBy := c.byUser } := by
        unfold mergeUpd
        rw [if_pos hb1]
      rw [hupd]
      have hra : r.status = RecordStatus.ACTIVE := by rw [hrm]; exact hms
      have hdup0 : ¬(c.tenantId = r.tenantId ∧ c.duplicateId = r.id) := by
        rintro ⟨-, hdd⟩
        rw [h1] at hdd
        exact hne hdd.symm
      rw [if_neg hdup0, hcnt]
      simp [hra]
    · by_cases hb2 : (r.id == c.duplicateId && r.tenantId == c.tenantId) = true
      · obtain ⟨h1, h2⟩ : r.id = c.duplicateId ∧ r.tenantId = c.tenantId := by
          simpa using hb2
        have hrd : r = d :=
          eq_of_pairwise_keys hkeys hrmem hdmem (by rw [h1, hdid])
            (by rw [h2, hdten])
        have hupd : mergeUpd c (resolvedFields ec rule m d) r =
            { r with status := RecordStatus.MERGED } := by
          unfold mergeUpd
          rw [if_neg (by simpa using hb1), if_pos hb2]
        rw [hupd]
        have hra : r.status = RecordStatus.ACTIVE := by rw [hrd]; exact hds
        rw [if_pos ⟨h2.symm, h1.symm⟩, hcnt]
        simp [hra]
      · have hupd : mergeUpd c (resolvedFields ec rule m d) r = r := by
          unfold mergeUpd
          rw [if_neg (by simpa using hb1), if_neg (by simpa using hb2)]
        rw [hupd]
        have hdup0 : ¬(c.tenantId = r.tenantId ∧ c.duplicateId = r.id) := by
          rintro ⟨ht0, hi0⟩
          exact hb2 (by simp [hi0.symm, ht0.symm])
        rw [if_neg hdup0, hcnt]
        omega
  · show (S.logs ++ [mkLog S c m d]).length ≤ S.logs.length + 1
    simp
  · show List.Forall₂ logCompat S.logs
      ((S.logs ++ [mkLog S c m d]).take S.logs.length)
    rw [List.take_left]
    exact List.forall₂_same.mpr (fun x _ => Or.inl rfl)

/-- Unmerge preserves the invariant and evolves the logs by exactly one
ACTIVE→REVERSED flip, deleting nothing. -/
theorem unmergeParty_preserves {S : MdmState} {c : UnmergeCall}
    {S' : MdmState} {a b : Nat}
    (h : unmergeParty S c = Except.ok (S', a, b))
    (hinv : mergeInvariant S) : mergeInvariant S' ∧ logsEvolve S S' := by
  obtain ⟨log, hfl, hact, hS', -, -⟩ := unmergeParty_ok_inv h
  obtain ⟨hkeys, ⟨hbound, hlpw⟩, hcount⟩ := hinv
  have hfl' : S.logs.find?
      (fun l => l.id == c.mergeLogId && l.tenantId == c.tenantId) = some log := hfl
  have hlm : log ∈ S.logs := List.mem_of_find?_eq_some hfl'
  have hpl : (log.id == c.mergeLogId && log.tenantId == c.tenantId) = true :=
    @List.find?_some MergeLog
      (fun l => l.id == c.mergeLogId && l.tenantId == c.tenantId) log S.logs hfl'
  obtain ⟨hlid, hlten⟩ : log.id = c.mergeLogId ∧ log.tenantId = c.tenantId := by
    simpa using hpl
  subst hS'
  have hflip : flipLog log.id log = { log with status := LogStatus.REVERSED } := by
    rw [flipLog, if_pos (by simp)]
  refine ⟨⟨?_, ⟨?_, ?_⟩, ?_⟩, ?_, ?_⟩
  · unfold recordKeysUnique unmergeApply
    rw [List.pairwise_map]
    exact hkeys.imp (fun hab => by
      rwa [unmergeUpd_id, unmergeUpd_id, unmergeUpd_tenantId, unmergeUpd_tenantId])
  · intro l hl
    obtain ⟨l0, hl0, rfl⟩ := List.mem_map.mp hl
    have := hbound l0 hl0
    simp only [unmergeApply]
    rw [flipLog_id]
    exact this
  · show ((S.logs.map (flipLog log.id)).Pairwise fun x y => x.id ≠ y.id)
    rw [List.pairwise_map]
    exact hlpw.imp (fun hab => by rwa [flipLog_id, flipLog_id])
  · intro r' hr'
    obtain ⟨r, hrmem, rfl⟩ := List.mem_map.mp hr'
    rw [unmergeUpd_tenantId, unmergeUpd_id]
    have hcnt := hcount r hrmem
    have hcmap : activeDupCount (unmergeApply S c log) r.tenantId r.id +
        (if (log.tenantId == r.tenantId && log.duplicateRecordId == r.id &&
          log.status == LogStatus.ACTIVE) then 1 else 0) =
        activeDupCount S r.tenantId r.id +
        (if ((flipLog log.id log).tenantId == r.tenantId &&
          (flipLog log.id log).duplicateRecordId == r.id &&
          (flipLog log.id log).status == LogStatus.ACTIVE) then 1 else 0) := by
      unfold activeDupCount unmergeApply
      rw [List.countP_map]
      exact countP_map_flip S.logs log hlm hlpw
        (fun l => l.tenantId == r.tenantId && l.duplicateRecordId == r.id &&
          l.status == LogStatus.ACTIVE)
    have hPflip : ((flipLog log.id log).tenantId == r.tenantId &&
        (flipLog log.id log).duplicateRecordId == r.id &&
        (flipLog log.id log).status == LogStatus.ACTIVE) = false := by
      rw [hflip]
      simp
    have hzero : (if ((flipLog log.id log).tenantId == r.tenantId &&
        (flipLog log.id log).duplicateRecordId == r.id &&
        (flipLog log.id log).status == LogStatus.ACTIVE) then (1:ℕ) else 0)
        = 0 := by
      rw [hPflip]
      rfl
    rw [hzero] at hcmap
    by_cases hb1 : (r.id == log.duplicateRecordId && r.tenantId == c.tenantId) = true
    · obtain ⟨h1, h2⟩ : r.id = log.duplicateRecordId ∧ r.tenantId = c.tenantId := by
        simpa using hb1
      have hupd : unmergeUpd c log r =
          { r with fields := log.duplicateSnapshot.fields,
                   status := RecordStatus.ACTIVE,
                   updatedAt := c.now, updatedBy := c.byUser } := by
        unfold unmergeUpd
        rw [if_pos hb1]
      rw [hupd]
      show activeDupCount (unmergeApply S c log) r.tenantId r.id =
        if RecordStatus.ACTIVE = RecordStatus.MERGED then 1 else 0
      have hACT : (if RecordStatus.ACTIVE = RecordStatus.MERGED
          then (1:ℕ) else 0) = 0 := by decide
      rw [hACT]
      have hPlog : (log.tenantId == r.tenantId && log.duplicateRecordId == r.id &&
          log.status == LogStatus.ACTIVE) = true := by
        simp [hlten, h2, h1, hact]
      have hone : (if (log.tenantId == r.tenantId &&
          log.duplicateRecordId == r.id &&
          log.status == LogStatus.ACTIVE) then (1:ℕ) else 0) = 1 := by
        rw [hPlog]
        rfl
      rw [hone] at hcmap
      have hpos : 0 < activeDupCount S r.tenantId r.id := by
        unfold activeDupCount
        rw [List.countP_pos_iff]
        exact ⟨log, hlm, hPlog⟩
      by_cases hrs : r.status = RecordStatus.MERGED
      · rw [if_pos hrs] at hcnt
        omega
      · rw [if_neg hrs] at hcnt
        omega
    · have hPlog : (log.tenantId == r.tenantId &&
          log.duplicateRecordId == r.id && log.status == LogStatus.ACTIVE)
          = false := by
        by_cases hten0 : r.tenantId = c.tenantId
        · have hdd : (log.duplicateRecordId == r.id) = false := by
            simp only [beq_eq_false_iff_ne, ne_eq]
            intro hh
            exact hb1 (by simp [hh.symm, hten0])
          simp [hdd]
        · have htt : (log.tenantId == r.tenantId) = false := by
            simp only [beq_eq_false_iff_ne, ne_eq]
            rw [hlten]
            exact fun hh => hten0 hh.symm
          simp [htt]
      have hzero2 : (if (log.tenantId == r.tenantId &&
          log.duplicateRecordId == r.id &&
          log.status == LogStatus.ACTIVE) then (1:ℕ) else 0) = 0 := by
        rw [hPlog]
        rfl
      rw [hzero2] at hcmap
      by_cases hb2 : (r.id == log.masterRecordId && r.tenantId == c.tenantId) = true
      · have hupd : unmergeUpd c log r =
            { r with fields := log.masterSnapshot.fields,
                     updatedAt := c.now, updatedBy := c.byUser } := by
          unfold unmergeUpd
          rw [if_neg (by simpa using hb1), if_pos hb2]
        rw [hupd]
        show activeDupCount (unmergeApply S c log) r.tenantId r.id =
          if r.status = RecordStatus.MERGED then 1 else 0
        rw [← hcnt]
        omega
      · have hupd : unmergeUpd c log r = r := by
          unfold unmergeUpd
          rw [if_neg (by simpa using hb1), if_neg (by simpa using hb2)]
        rw [hupd]
        rw [← hcnt]
        omega
  · show (S.logs.map (flipLog log.id)).length ≤ S.logs.length + 1
    simp
  · show List.Forall₂ logCompat S.logs
      ((S.logs.map (flipLog log.id)).take S.logs.length)
    rw [List.take_of_length_le (by simp)]
    rw [List.forall₂_map_right_iff]
    refine List.forall₂_same.mpr ?_
    intro x hx
    by_cases hxid : (x.id == log.id) = true
    · have hxeq : x = log := eq_of_pairwise_log_ids hlpw hx hlm (by simpa using hxid)
      subst hxeq
      rw [hflip]
      exact Or.inr ⟨hact, rfl⟩
    · left
      rw [flipLog, if_neg (by simpa using hxid)]

/-- C3.  Merge-participation invariant: any successful merge or unmerge
step preserves the invariant that a MERGED record is the duplicate side of
exactly one ACTIVE MergeLog of its tenant and an ACTIVE (or any
non-MERGED) record of none; moreover across each step the log table only
ever gains at most one freshly-created log (merge appends exactly one), no
log is deleted, and an existing log row changes at most by one
ACTIVE→REVERSED transition — REVERSED is terminal. -/
theorem merge_participation_invariant (S S' : MdmState) (hstep : MdmStep S S')
    (hinv : mergeInvariant S) : mergeInvariant S' ∧ logsEvolve S S' := by
  cases hstep with
  | merge ec c _ _ L r h => exact mergeParties_preserves h hinv
  | unmerge c _ _ a b h => exact unmergeParty_preserves h hinv

/-- Witness for C3: the example merge step from the well-formed example
state preserves the invariant, by direct application of the theorem. -/
theorem merge_participation_invariant_witness :
    mergeInvariant (mergeApply exEval exState exMerge exRecA exRecB none) ∧
    logsEvolve exState (mergeApply exEval exState exMerge exRecA exRecB none) :=
  merge_participation_invariant exState
    (mergeApply exEval exState exMerge exRecA exRecB none)
    (MdmStep.merge exEval exMerge exState
      (mergeApply exEval exState exMerge exRecA exRecB none) 5
      ⟨1, 7, RecordStatus.ACTIVE, resolvedFields exEval none exRecA exRecB,
        100, 9⟩
      (by rfl))
    (by refine ⟨?_, ⟨?_, ?_⟩, ?_⟩
        · unfold recordKeysUnique
          decide
        · intro l hl
          simp [exState] at hl
        · unfold exState
          decide
        · unfold activeDupCount
          decide)

end Mdm
